import Mathlib

/-!
Verification of the goldfish repository's reactive core and tooling helpers.

The development shallowly embeds the following source files:

* `packages/reactive/src/watchDeep.ts` — the deep-watch walk (`Watcher.iterate`,
  `Watcher.watch`, `watchDeep`), modelled twice:
  - a pure setup-time model over tree-shaped JavaScript values (`iterVal`),
    which captures exactly which watch registrations the eager walk installs,
    with which key paths, and which disposers end up in the returned list;
  - a heap-based dynamic model (`iterateDyn` / `writeDyn`) in which property
    writes fire the installed watchers, so that the replacement behaviour of
    composite children can be executed.  The watch engine itself
    (`packages/reactive/src/watch.ts`) is not part of the given sources and is
    modelled from the spec.
* `packages/react/src/ComponentSetup.ts` — the three lifecycle disposer
  buckets.
* `packages/hooks/src/hooks/useGlobalData.ts` — the keyed get/set facade.
* `packages/pre-build/src/findMiniDependencies/findJsDependencyModules.ts` —
  the recursive import-graph walker.
* `packages/pre-build/src/createPDSGulpConfig.ts` — `pdsCustomHandle`, the
  environment-variable substitution.
-/

/-- A key in a key path: object keys are strings, array indices are numbers
(`watchDeep.ts` pushes the `for … in` key for objects and the `forEach` index
for arrays). -/
inductive JKey where
  | str : String → JKey
  | idx : Nat → JKey
deriving DecidableEq, Repr

mutual
/-- A JavaScript value as seen by the deep-watch walk: primitives
(`undefined`, `null`, numbers, strings, booleans) and composites (plain
objects with fields in the host's enumeration order, arrays). -/
inductive JVal where
  | undefv : JVal
  | nullv : JVal
  | num : Int → JVal
  | str : String → JVal
  | boolv : Bool → JVal
  | obj : JFields → JVal
  | arr : JElems → JVal
deriving DecidableEq

/-- Object fields, in the host's default enumeration order. -/
inductive JFields where
  | nil : JFields
  | cons : String → JVal → JFields → JFields
deriving DecidableEq

/-- Array elements, in index order. -/
inductive JElems where
  | nil : JElems
  | cons : JVal → JElems → JElems
deriving DecidableEq
end

/-- The composite check of `Watcher.iterate`: `curObj && typeof curObj ===
'object'` — true exactly for (non-null) objects and arrays. -/
def isComposite : JVal → Bool
  | .obj _ => true
  | .arr _ => true
  | _ => false

/-- The enumerated field names of an object, in order. -/
def fieldNames : JFields → List String
  | .nil => []
  | .cons k _ rest => k :: fieldNames rest

/-- The number of elements of an array value. -/
def elemsLen : JElems → Nat
  | .nil => 0
  | .cons _ rest => elemsLen rest + 1

/-- The keys a single level of the walk enumerates: indices `0..length-1`
for arrays (via `forEach`), the field names for objects (via `for … in`). -/
def childKeys : JVal → List JKey
  | .obj fs => (fieldNames fs).map JKey.str
  | .arr es => (List.range (elemsLen es)).map JKey.idx
  | _ => []

/-- A watch registration installed by the setup walk: a fresh id (in
installation order) together with the key path the registration's callback
would report. -/
structure SReg where
  wid : Nat
  path : List JKey
deriving DecidableEq, Repr

/-- Result of one `Watcher.iterate` call: every registration installed by the
call (this level and below, in installation order), the `stopList` the call
returns (as registration ids), and the next fresh id. -/
structure SetupRes where
  regs : List SReg
  stops : List Nat
  next : Nat
deriving DecidableEq, Repr

mutual
/-- Setup-time model of `Watcher.iterate(curObj, keyPathList)`.  For a
non-composite value it installs nothing and returns an empty stop list.  For a
composite value it processes each enumerated key `k` in order: it installs a
watch registration on `curObj[k]` (pushing that registration's disposer onto
the returned `stopList`), and — unless `immediate` is set — eagerly recurses
into `curObj[k]`; the disposers produced by the recursion go into the
closure-local `keyStopList` of key `k`, not into the returned `stopList`. -/
def iterVal (imm : Bool) : JVal → List JKey → Nat → SetupRes
  | .obj fs, p, n => iterFields imm fs p n
  | .arr es, p, n => iterElems imm es 0 p n
  | _, _, n => ⟨[], [], n⟩

/-- The object branch of the per-key loop of `Watcher.iterate`. -/
def iterFields (imm : Bool) : JFields → List JKey → Nat → SetupRes
  | .nil, _, n => ⟨[], [], n⟩
  | .cons k v rest, p, n =>
    let child := if imm then (⟨[], [], n + 1⟩ : SetupRes)
                 else iterVal imm v (p ++ [JKey.str k]) (n + 1)
    let restRes := iterFields imm rest p child.next
    ⟨⟨n, p ++ [JKey.str k]⟩ :: (child.regs ++ restRes.regs),
      n :: restRes.stops, restRes.next⟩

/-- The array branch of the per-key loop of `Watcher.iterate` (`forEach`
with the running index `i`). -/
def iterElems (imm : Bool) : JElems → Nat → List JKey → Nat → SetupRes
  | .nil, _, _, n => ⟨[], [], n⟩
  | .cons v rest, i, p, n =>
    let child := if imm then (⟨[], [], n + 1⟩ : SetupRes)
                 else iterVal imm v (p ++ [JKey.idx i]) (n + 1)
    let restRes := iterElems imm rest (i + 1) p child.next
    ⟨⟨n, p ++ [JKey.idx i]⟩ :: (child.regs ++ restRes.regs),
      n :: restRes.stops, restRes.next⟩
end

/-- `watchDeep(obj, callback, options)` delegates to
`new Watcher(obj, callback, options).watch()`, which runs `iterate(obj)` with
an empty key path. -/
def watchDeep (imm : Bool) (obj : JVal) : SetupRes :=
  iterVal imm obj [] 0

mutual
/-- Modelled from the spec: the set of key paths a full deep watch must
cover — for a composite node at path `p`, every enumerated key `k` (array
indices in order `0..length-1`, object keys in enumeration order) contributes
the path `p ++ [k]` followed by the paths of the subtree below `k`. -/
def allKeyPaths : JVal → List JKey → List (List JKey)
  | .obj fs, p => allKeyPathsFields fs p
  | .arr es, p => allKeyPathsElems es 0 p
  | _, _ => []

/-- Spec-side enumeration of key paths under an object's fields. -/
def allKeyPathsFields : JFields → List JKey → List (List JKey)
  | .nil, _ => []
  | .cons k v rest, p =>
    (p ++ [JKey.str k]) :: (allKeyPaths v (p ++ [JKey.str k]) ++ allKeyPathsFields rest p)

/-- Spec-side enumeration of key paths under an array's elements. -/
def allKeyPathsElems : JElems → Nat → List JKey → List (List JKey)
  | .nil, _, _ => []
  | .cons v rest, i, p =>
    (p ++ [JKey.idx i]) :: (allKeyPaths v (p ++ [JKey.idx i]) ++ allKeyPathsElems rest (i + 1) p)
end

/-! ### Dynamic model of deep watching

`watch.ts` is not part of the given sources; its behaviour is modelled from
the spec: a watch on a getter `() => curObj[key]` fires its callback with
`(newValue, oldValue, …)` when the stored value of `(curObj, key)` is replaced
by a different value (identity comparison), watchers fire in subscription
(installation) order, and a watch's disposer removes the registration so later
writes no longer fire it.  Object graphs live in an explicit heap so that
object identity (JavaScript reference semantics) is preserved. -/

/-- A runtime JavaScript value: `undefined`, a primitive, or a reference to a
heap object/array. -/
inductive HVal where
  | undefv : HVal
  | prim : Int → HVal
  | ref : Nat → HVal
deriving DecidableEq, Repr

/-- Modelled from the spec: `isObject` of `@goldfishjs/utils` (not under the
given sources) — true exactly for composite (object/array) values, i.e. heap
references here. -/
def isObjectH : HVal → Bool
  | .ref _ => true
  | _ => false

/-- A heap object or array: its enumerable own fields in enumeration order. -/
structure HNode where
  fields : List (JKey × HVal)
deriving DecidableEq, Repr

/-- A live watch registration of the deep-watch tree: its id, the heap object
it watches (`curObj` of the closure), the watched key, and the key path
`keyPathList ++ [key]` its callback reports. -/
structure DReg where
  wid : Nat
  tgt : Nat
  key : JKey
  path : List JKey
deriving DecidableEq, Repr

/-- One invocation of the outer deep-watch callback: the reported key path,
the new value and the old value (the root object argument is the fixed
`this.obj` and is left implicit). -/
structure DEvent where
  path : List JKey
  newV : HVal
  oldV : HVal
deriving DecidableEq, Repr

/-- The full dynamic state: the heap, the live watch registrations in
installation order, the per-registration `keyStopList` contents (ids of the
descendant watches the registration's callback would dispose), the next fresh
watch id, and the log of callback invocations. -/
structure Sys where
  heap : List (Nat × HNode)
  regs : List DReg
  children : List (Nat × List Nat)
  nextW : Nat
  events : List DEvent
deriving DecidableEq, Repr

/-- Look up a heap node by reference. -/
def heapLookup (h : List (Nat × HNode)) (r : Nat) : Option HNode :=
  match h.find? (fun e => e.1 == r) with
  | some e => some e.2
  | none => none

/-- Current value of `node[k]`; a missing property reads as `undefined`. -/
def heapGetField (h : List (Nat × HNode)) (r : Nat) (k : JKey) : HVal :=
  match heapLookup h r with
  | some node =>
    match node.fields.find? (fun f => f.1 == k) with
    | some f => f.2
    | none => .undefv
  | none => .undefv

/-- Store `node[k] = v`, keeping field order; a new property is appended. -/
def setFields (fs : List (JKey × HVal)) (k : JKey) (v : HVal) : List (JKey × HVal) :=
  match fs with
  | [] => [(k, v)]
  | f :: rest => if f.1 = k then (k, v) :: rest else f :: setFields rest k v

/-- Write a field of a heap object. -/
def heapSetField (h : List (Nat × HNode)) (r : Nat) (k : JKey) (v : HVal) :
    List (Nat × HNode) :=
  h.map (fun e => if e.1 = r then (e.1, ⟨setFields e.2.fields k v⟩) else e)

/-- Contents of a registration's `keyStopList`. -/
def childrenOf (c : List (Nat × List Nat)) (wid : Nat) : List Nat :=
  match c.find? (fun e => e.1 == wid) with
  | some e => e.2
  | none => []

/-- Replace a registration's `keyStopList` contents. -/
def setChildren (c : List (Nat × List Nat)) (wid : Nat) (cs : List Nat) :
    List (Nat × List Nat) :=
  c.map (fun e => if e.1 = wid then (e.1, cs) else e)

/-- Append to a registration's `keyStopList` (`keyStopList.push(...)`). -/
def appendChildren (c : List (Nat × List Nat)) (wid : Nat) (cs : List Nat) :
    List (Nat × List Nat) :=
  c.map (fun e => if e.1 = wid then (e.1, e.2 ++ cs) else e)

/-- Dynamic model of `Watcher.iterate(curObj, keyPathList)` over the heap:
for each enumerated field `k` of the target object, install a watch
registration (with an empty `keyStopList`), and — unless `immediate` is
set — eagerly recurse into the field's current value when it is composite,
recording the recursion's returned stop list as the new registration's
`keyStopList`.  Returns the stop list of this level (the ids of the watches
installed directly on the target's keys) and the updated state.  `fuel`
bounds the recursion depth (the JavaScript original would not terminate on a
cyclic object graph either); every scenario below uses ample fuel. -/
def iterateDyn : Nat → Bool → Sys → Nat → List JKey → List Nat × Sys
  | 0, _, sys, _, _ => ([], sys)
  | fuel + 1, imm, sys, tgt, path =>
    match heapLookup sys.heap tgt with
    | none => ([], sys)
    | some node =>
      node.fields.foldl
        (fun acc kv =>
          let wid := acc.2.nextW
          let sys1 : Sys :=
            { acc.2 with
              nextW := wid + 1
              regs := acc.2.regs ++ [⟨wid, tgt, kv.1, path ++ [kv.1]⟩]
              children := acc.2.children ++ [(wid, [])] }
          let sys2 : Sys :=
            if imm then sys1
            else
              match kv.2 with
              | .ref r =>
                let res := iterateDyn fuel imm sys1 r (path ++ [kv.1])
                { res.2 with children := setChildren res.2.children wid res.1 }
              | _ => sys1
          (acc.1 ++ [wid], sys2))
        ([], sys)

/-- The callback installed by `Watcher.iterate` for one key, modelled as the
reaction to a change of the watched value: (i) invoke the outer deep-watch
callback (append an event), (ii) if the old value is composite, stop every
watcher whose disposer sits in this key's `keyStopList` and clear the list,
(iii) if the new value is composite, run `iterate` on it and push the
returned disposers onto the `keyStopList`.  A registration that has already
been disposed does nothing. -/
def fireWatch (fuel : Nat) (imm : Bool) (sys : Sys) (wid : Nat)
    (newV oldV : HVal) : Sys :=
  match sys.regs.find? (fun r => r.wid == wid) with
  | none => sys
  | some reg =>
    let sys1 : Sys := { sys with events := sys.events ++ [⟨reg.path, newV, oldV⟩] }
    let sys2 : Sys :=
      if isObjectH oldV then
        let cs := childrenOf sys1.children wid
        { sys1 with
          regs := sys1.regs.filter (fun r => !(cs.contains r.wid))
          children := setChildren sys1.children wid [] }
      else sys1
    match newV with
    | .ref r2 =>
      let res := iterateDyn fuel imm sys2 r2 reg.path
      { res.2 with children := appendChildren res.2.children wid res.1 }
    | _ => sys2

/-- Modelled from the spec: a reactive property write.  If the new value is
identical to the stored one, nothing happens; otherwise the value is stored
and every live watch registration on `(tgt, k)` fires in installation
order. -/
def writeDyn (fuel : Nat) (imm : Bool) (sys : Sys) (tgt : Nat) (k : JKey)
    (newV : HVal) : Sys :=
  let oldV := heapGetField sys.heap tgt k
  if newV = oldV then sys
  else
    let sys1 : Sys := { sys with heap := heapSetField sys.heap tgt k newV }
    let matching := (sys1.regs.filter (fun r => r.tgt == tgt && r.key == k)).map DReg.wid
    matching.foldl (fun s wid => fireWatch fuel imm s wid newV oldV) sys1

/-- Empty dynamic state over a given heap. -/
def initSys (h : List (Nat × HNode)) : Sys := ⟨h, [], [], 0, []⟩

/-! ### Lifecycle buckets — `ComponentSetup.ts`

Disposers are opaque zero-argument callbacks; they are modelled by ids, and
an invocation log records each call in order. -/

/-- The three disposer buckets of `ComponentSetup`. -/
structure ComponentSetup where
  stopList : List Nat
  stopAutorunList : List Nat
  stopWatchList : List Nat
deriving DecidableEq, Repr

/-- A `ComponentSetup` instance together with the log of disposer
invocations (each entry is the id of a disposer that was called). -/
structure CSState where
  cs : ComponentSetup
  log : List Nat
deriving DecidableEq, Repr

/-- `setStopList(list)` replaces the general bucket. -/
def setStopList (s : CSState) (l : List Nat) : CSState :=
  ⟨{ s.cs with stopList := l }, s.log⟩

/-- `removeAllStopList()`: `this.stopList.forEach(s => s()); this.stopList = []`. -/
def removeAllStopList (s : CSState) : CSState :=
  ⟨{ s.cs with stopList := [] }, s.log ++ s.cs.stopList⟩

/-- `addAutorunStopFn(fn)` appends to the autorun bucket. -/
def addAutorunStopFn (s : CSState) (f : Nat) : CSState :=
  ⟨{ s.cs with stopAutorunList := s.cs.stopAutorunList ++ [f] }, s.log⟩

/-- `stopAllAutorun()`: invoke every autorun disposer in order, then empty
the bucket. -/
def stopAllAutorun (s : CSState) : CSState :=
  ⟨{ s.cs with stopAutorunList := [] }, s.log ++ s.cs.stopAutorunList⟩

/-- `addWatchStopFn(fn)` appends to the watch bucket. -/
def addWatchStopFn (s : CSState) (f : Nat) : CSState :=
  ⟨{ s.cs with stopWatchList := s.cs.stopWatchList ++ [f] }, s.log⟩

/-- `stopAllWatch()`: invoke every watch disposer in order, then empty the
bucket. -/
def stopAllWatch (s : CSState) : CSState :=
  ⟨{ s.cs with stopWatchList := [] }, s.log ++ s.cs.stopWatchList⟩

/-! ### Keyed global state — `useGlobalData.ts`

`useState` (the counter hook) is repository code not under the given
sources; modelled from the spec, `setCounter(x)` stores `x` as the re-render
counter.  JavaScript `!==` is identity: value comparison on primitives,
reference comparison on objects — exactly `HVal` equality. -/

/-- The state visible to one `useGlobalData` accessor pair: the shared
store `app.data` and the re-render counter. -/
structure GlobalState where
  data : List (String × HVal)
  counter : Nat
deriving DecidableEq, Repr

/-- Read a key of the store; a missing key reads as `undefined`. -/
def lookupData (d : List (String × HVal)) (k : String) : HVal :=
  match d.find? (fun e => e.1 == k) with
  | some e => e.2
  | none => .undefv

/-- Store a value under a key, keeping the store's key order. -/
def storeData (d : List (String × HVal)) (k : String) (v : HVal) :
    List (String × HVal) :=
  match d with
  | [] => [(k, v)]
  | e :: rest => if e.1 = k then (k, v) :: rest else e :: storeData rest k v

/-- The `get` accessor returned by `useGlobalData`:
`realGlobal.data[key]`. -/
def ugdGet (s : GlobalState) (k : String) : HVal :=
  lookupData s.data k

/-- The `set` accessor returned by `useGlobalData`: if the new value is not
identical to the stored one, store it and bump the re-render counter;
otherwise do nothing. -/
def ugdSet (s : GlobalState) (k : String) (v : HVal) : GlobalState :=
  if lookupData s.data k = v then s
  else ⟨storeData s.data k v, s.counter + 1⟩

/-! ### Import-graph walker — `findJsDependencyModules.ts`

The file system, `@babel/parser` and `resolveModule`/`fileCache` (repository
code not under the given sources) are modelled from the spec as a finite
table: each absolute file path maps to the list of `(importPath,
importFilePath)` pairs its AST mentions, in traversal order, with the import
paths already resolved; `fileCache.run` is modelled as always invoking the
computation (a cache miss).  A path absent from the table stands for a file
that cannot be read or parsed, and errors out like the original. -/

/-- A recorded dependency, as pushed by `record` in `Finder.run`. -/
structure Dependency where
  importPath : String
  importFilePath : String
  jsPath : String
deriving DecidableEq, Repr

/-- The parsed import graph (see section comment). -/
abbrev DepGraph := List (String × List (String × String))

/-- Parse a file: the `(importPath, importFilePath)` pairs its AST records. -/
def lookupGraph (g : DepGraph) (p : String) : Option (List (String × String)) :=
  match g.find? (fun e => e.1 == p) with
  | some e => some e.2
  | none => none

/-- `lodash.uniqBy(result, dep => dep.importFilePath)`: keep the first
occurrence of each `importFilePath`. -/
def uniqByFilePath : List Dependency → List String → List Dependency
  | [], _ => []
  | d :: rest, seen =>
    if d.importFilePath ∈ seen then uniqByFilePath rest seen
    else d :: uniqByFilePath rest (d.importFilePath :: seen)

/-- A string starts with a prefix (computed on the character list). -/
def strStartsWith (s pre : String) : Bool :=
  pre.toList.isPrefixOf s.toList

/-- A string ends with a suffix (computed on the character list). -/
def strEndsWith (s suf : String) : Bool :=
  suf.toList.isSuffixOf s.toList

/-- The early-return guard of `Finder.run`:
`!jsPath.startsWith('/') || jsPath.endsWith('.json') || this.visited.has(jsPath)`. -/
def skipPath (visited : List String) (jsPath : String) : Bool :=
  !(strStartsWith jsPath "/") || strEndsWith jsPath ".json" || decide (jsPath ∈ visited)

/-- Number of files of the graph not yet visited — the termination measure
of the walk. -/
def unvisitedCount (g : DepGraph) (visited : List String) : Nat :=
  (g.map Prod.fst).countP (fun q => decide (q ∉ visited))

/-- Termination helper: a successful parse means the path is a key of the
graph. -/
theorem mem_keys_of_lookupGraph {g : DepGraph} {p : String}
    {l : List (String × String)} (h : lookupGraph g p = some l) :
    p ∈ g.map Prod.fst := by
  unfold lookupGraph at h
  cases hf : g.find? (fun e => e.1 == p) with
  | none => rw [hf] at h; cases h
  | some e =>
    have he := @List.find?_some _ (fun e => e.1 == p) e g hf
    have hm : e ∈ g := List.mem_of_find?_eq_some hf
    have he' : e.1 = p := by simpa using he
    exact he' ▸ List.mem_map_of_mem Prod.fst hm

/-- Termination helper: counting is monotone in the visited set. -/
theorem unvisitedCount_append_le (g : DepGraph) (xs visited : List String) :
    unvisitedCount g (xs ++ visited) ≤ unvisitedCount g visited := by
  unfold unvisitedCount
  apply List.countP_mono_left
  intro x _ h
  simp only [decide_eq_true_eq] at h ⊢
  intro hx
  exact h (List.mem_append.mpr (Or.inr hx))

/-- Termination helper: visiting a not-yet-visited key of the graph strictly
decreases the number of unvisited keys. -/
theorem unvisitedCount_cons_lt {g : DepGraph} {visited : List String}
    {p : String} (hmem : p ∈ g.map Prod.fst) (hnv : p ∉ visited) :
    unvisitedCount g (p :: visited) < unvisitedCount g visited := by
  unfold unvisitedCount
  revert hmem
  induction g.map Prod.fst with
  | nil => intro hmem; cases hmem
  | cons a l ih =>
    intro hmem
    rw [List.countP_cons, List.countP_cons]
    by_cases hap : a = p
    · subst hap
      have h1 : decide (a ∉ a :: visited) = false := by simp
      have h2 : decide (a ∉ visited) = true := by simpa using hnv
      rw [h1, h2, if_neg (fun h => Bool.false_ne_true h), if_pos rfl]
      have hle : l.countP (fun q => decide (q ∉ a :: visited))
          ≤ l.countP (fun q => decide (q ∉ visited)) := by
        apply List.countP_mono_left
        intro x _ hx
        simp only [decide_eq_true_eq, List.mem_cons] at hx ⊢
        intro h
        exact hx (Or.inr h)
      omega
    · have heq : decide (a ∉ p :: visited) = decide (a ∉ visited) := by
        simp only [List.mem_cons, decide_not]
        congr 1
        simp [hap]
      rcases List.mem_cons.mp hmem with h | h
      · exact absurd h.symm hap
      · have := ih h
        rw [heq]
        omega

mutual
/-- `Finder.run(jsPath)`: return `[]` immediately for non-absolute paths,
`.json` paths, and already-visited paths; otherwise mark the path visited,
parse it, and for each recorded import emit the dependency followed by the
recursive results, finally deduplicating by `importFilePath`.  The second
component of the result is the list of paths newly added to the visited set
(in visiting order); the caller owns the accumulated visited set.  The
function is total (defined by well-founded recursion on the number of
unvisited graph keys), which is the termination property of the walk. -/
def finderRun (g : DepGraph) (visited : List String) (jsPath : String) :
    Except String (List Dependency × List String) :=
  if hskip : skipPath visited jsPath then Except.ok ([], [])
  else
    match hlook : lookupGraph g jsPath with
    | none => Except.error (String.append "Can not read or parse the file " jsPath)
    | some imports =>
      match finderRecords g (jsPath :: visited) jsPath imports with
      | Except.error e => Except.error e
      | Except.ok r => Except.ok (uniqByFilePath r.1 [], jsPath :: r.2)
termination_by (unvisitedCount g visited, 0)
decreasing_by
  apply Prod.Lex.left
  apply unvisitedCount_cons_lt (mem_keys_of_lookupGraph hlook)
  simp only [skipPath, Bool.or_eq_true, decide_eq_true_eq, not_or] at hskip
  exact hskip.2

/-- The loop body of `Finder.run` over the recorded imports: for each
`(importPath, importFilePath)` pair push the dependency and then the result
of the recursive `run(importFilePath)`. -/
def finderRecords (g : DepGraph) (visited : List String) (jsPath : String) :
    List (String × String) → Except String (List Dependency × List String)
  | [] => Except.ok ([], [])
  | imp :: rest =>
    match finderRun g visited imp.2 with
    | Except.error e => Except.error e
    | Except.ok r1 =>
      match finderRecords g (r1.2 ++ visited) jsPath rest with
      | Except.error e => Except.error e
      | Except.ok r2 =>
        Except.ok (⟨imp.1, imp.2, jsPath⟩ :: (r1.1 ++ r2.1), r1.2 ++ r2.2)
termination_by imports => (unvisitedCount g visited, imports.length + 1)
decreasing_by
  · apply Prod.Lex.right
    simp only [List.length_cons]
    omega
  · rcases Nat.lt_or_ge (unvisitedCount g (r1.2 ++ visited)) (unvisitedCount g visited)
      with h | h
    · exact Prod.Lex.left _ _ h
    · have heq : unvisitedCount g (r1.2 ++ visited) = unvisitedCount g visited :=
        Nat.le_antisymm (unvisitedCount_append_le g r1.2 visited) h
      rw [heq]
      apply Prod.Lex.right
      simp only [List.length_cons]
      omega
end

/-- `findJsDependencyModules(jsPath)`: run a fresh `Finder` (empty visited
set). -/
def findJsDependencyModules (g : DepGraph) (jsPath : String) :
    Except String (List Dependency × List String) :=
  finderRun g [] jsPath

/-! ### Environment substitution — `createPDSGulpConfig.ts` (`pdsCustomHandle`)

A process environment is a finite ordered map from variable names to string
values (entries in `Object.keys` order, names unique).  `gulp-replace`
(third-party) is modelled as replacing every occurrence of a pattern in the
compiled text. -/

/-- The selection test of `pdsCustomHandle`: `/^GOLDFISH_APP/.test(key) ||
key === 'NODE_ENV'`. -/
def relevantEnvKey (k : String) : Bool :=
  strStartsWith k "GOLDFISH_APP" || k == "NODE_ENV"

/-- The `envs` object built by `pdsCustomHandle`: the environment filtered to
the relevant keys, in enumeration order. -/
def collectEnvs (env : List (String × String)) : List (String × String) :=
  env.filter (fun e => relevantEnvKey e.1)

/-- `JSON.stringify` of a string value: quote it, escaping backslashes and
double quotes. -/
def jsonStringifyStr (s : String) : String :=
  "\"" ++ String.join (s.toList.map (fun c =>
    if c = '\\' then "\\\\" else if c = '"' then "\\\"" else String.singleton c)) ++ "\""

/-- The replacement pairs `pdsCustomHandle` pipes over the stream, in order:
each relevant variable `KEY` rewrites `process.env.KEY` to the JSON literal
of its value. -/
def pdsReplacements (env : List (String × String)) : List (String × String) :=
  (collectEnvs env).map (fun e => (String.append "process.env." e.1, jsonStringifyStr e.2))

/-- Apply the replacement pipeline of `pdsCustomHandle` to one compiled
file's text. -/
def pdsCustomHandle (env : List (String × String)) (src : String) : String :=
  (pdsReplacements env).foldl (fun acc r => acc.replace r.1 r.2) src

/-! ### Concrete scenarios for the dynamic deep-watch model -/

/-- Heap for the spec's subtree-replacement test: object `0` is the root
`{ a: ref 1 }`, object `1` is `{ b: 1 }` (the original child), object `2` is
`{ c: 2 }` (the replacement child). -/
def replHeap : List (Nat × HNode) :=
  [(0, ⟨[(JKey.str "a", HVal.ref 1)]⟩),
   (1, ⟨[(JKey.str "b", HVal.prim 1)]⟩),
   (2, ⟨[(JKey.str "c", HVal.prim 2)]⟩)]

/-- Deep watch installed over the root of `replHeap` (no `immediate`). -/
def replSetup : Sys := (iterateDyn 10 false (initSys replHeap) 0 []).2

/-- After `obj.a = { c: 2 }` (writing `ref 2` over `ref 1`). -/
def replAfterSwap : Sys := writeDyn 10 false replSetup 0 (JKey.str "a") (HVal.ref 2)

/-- After additionally `obj.a.c = 3`. -/
def replAfterC3 : Sys := writeDyn 10 false replAfterSwap 2 (JKey.str "c") (HVal.prim 3)

/-- After additionally writing `99` to the detached old child's `b`. -/
def replFinal : Sys := writeDyn 10 false replAfterC3 1 (JKey.str "b") (HVal.prim 99)

/-- Heap for the depth-2 replacement scenario: root `0` is
`{ a: ref 1 }`, `1` is `{ b: ref 2 }`, `2` is `{ c: 1 }` (a grandchild of the
root), `3` is `{ x: 2 }` (the replacement for `a`). -/
def deepHeap : List (Nat × HNode) :=
  [(0, ⟨[(JKey.str "a", HVal.ref 1)]⟩),
   (1, ⟨[(JKey.str "b", HVal.ref 2)]⟩),
   (2, ⟨[(JKey.str "c", HVal.prim 1)]⟩),
   (3, ⟨[(JKey.str "x", HVal.prim 2)]⟩)]

/-- Deep watch installed over the root of `deepHeap` (no `immediate`). -/
def deepSetup : Sys := (iterateDyn 10 false (initSys deepHeap) 0 []).2

/-- After `obj.a = { x: 2 }`: the old subtree `{ b: { c: 1 } }` is replaced
wholesale. -/
def deepAfterSwap : Sys := writeDyn 10 false deepSetup 0 (JKey.str "a") (HVal.ref 3)

/-- After additionally writing `9` to the detached old grandchild's `c`. -/
def deepAfterOldWrite : Sys := writeDyn 10 false deepAfterSwap 2 (JKey.str "c") (HVal.prim 9)

/-- Setup over `replHeap` with `immediate` set: the eager recursion is
skipped. -/
def immSetup : Sys := (iterateDyn 10 true (initSys replHeap) 0 []).2

/-- With `immediate` set, after the first change of `a` (to `{ c: 2 }`). -/
def immAfterSwap : Sys := writeDyn 10 true immSetup 0 (JKey.str "a") (HVal.ref 2)

/-- The nested object `{ a: { b: 1 } }` as a tree value, for the setup-time
walk. -/
def nestedObj : JVal :=
  JVal.obj (JFields.cons "a" (JVal.obj (JFields.cons "b" (JVal.num 1) JFields.nil)) JFields.nil)

/-- A cyclic import graph: `/a.js` imports `/b.js` and `/b.js` imports
`/a.js`. -/
def cyclicGraph : DepGraph :=
  [("/a.js", [("./b", "/b.js")]), ("/b.js", [("./a", "/a.js")])]

/-- A concrete global store for witnessing the `useGlobalData` accessors. -/
def gs0 : GlobalState := ⟨[("k", HVal.prim 0)], 5⟩

/-- A process environment containing irrelevant variables alongside the
relevant ones. -/
def envA : List (String × String) :=
  [("HOME", "/root"), ("GOLDFISH_APP_X", "1"), ("NODE_ENV", "production")]

/-- Another process environment agreeing with `envA` on the relevant
variables but differing everywhere else. -/
def envB : List (String × String) :=
  [("GOLDFISH_APP_X", "1"), ("PATH", "/bin"), ("NODE_ENV", "production"), ("USER", "u")]

/-! ## Helper lemmas about the setup-time walk -/

mutual
theorem iterVal_regs_paths : ∀ (v : JVal) (p : List JKey) (n : Nat),
    ((iterVal false v p n).regs.map SReg.path) = allKeyPaths v p
  | .obj fs, p, n => iterFields_regs_paths fs p n
  | .arr es, p, n => iterElems_regs_paths es 0 p n
  | .undefv, _, _ => rfl
  | .nullv, _, _ => rfl
  | .num _, _, _ => rfl
  | .str _, _, _ => rfl
  | .boolv _, _, _ => rfl

theorem iterFields_regs_paths : ∀ (fs : JFields) (p : List JKey) (n : Nat),
    ((iterFields false fs p n).regs.map SReg.path) = allKeyPathsFields fs p
  | .nil, _, _ => rfl
  | .cons k v rest, p, n => by
    simp only [iterFields, allKeyPathsFields, List.map_cons, List.map_append,
      Bool.false_eq_true, if_false]
    rw [iterVal_regs_paths v (p ++ [JKey.str k]) (n + 1)]
    rw [iterFields_regs_paths rest p _]

theorem iterElems_regs_paths : ∀ (es : JElems) (i : Nat) (p : List JKey) (n : Nat),
    ((iterElems false es i p n).regs.map SReg.path) = allKeyPathsElems es i p
  | .nil, _, _, _ => rfl
  | .cons v rest, i, p, n => by
    simp only [iterElems, allKeyPathsElems, List.map_cons, List.map_append,
      Bool.false_eq_true, if_false]
    rw [iterVal_regs_paths v (p ++ [JKey.idx i]) (n + 1)]
    rw [iterElems_regs_paths rest (i + 1) p _]
end

theorem iterFields_imm_paths : ∀ (fs : JFields) (p : List JKey) (n : Nat),
    ((iterFields true fs p n).regs.map SReg.path)
      = (fieldNames fs).map (fun k => p ++ [JKey.str k])
  | .nil, _, _ => rfl
  | .cons k v rest, p, n => by
    simp only [iterFields, fieldNames, List.map_cons, eq_self_iff_true, if_true, List.nil_append]
    rw [iterFields_imm_paths rest p (n + 1)]

theorem iterElems_imm_paths : ∀ (es : JElems) (i : Nat) (p : List JKey) (n : Nat),
    ((iterElems true es i p n).regs.map SReg.path)
      = (List.range' i (elemsLen es)).map (fun j => p ++ [JKey.idx j])
  | .nil, _, _, _ => rfl
  | .cons v rest, i, p, n => by
    simp only [iterElems, elemsLen, List.map_cons, eq_self_iff_true, if_true, List.nil_append,
      List.range'_succ]
    rw [iterElems_imm_paths rest (i + 1) p (n + 1)]

theorem iterVal_imm_paths (v : JVal) (p : List JKey) (n : Nat) :
    ((iterVal true v p n).regs.map SReg.path) = (childKeys v).map (fun k => p ++ [k]) := by
  cases v
  case obj fs =>
    show ((iterFields true fs p n).regs.map SReg.path) = _
    rw [iterFields_imm_paths]
    simp [childKeys, List.map_map]
  case arr es =>
    show ((iterElems true es 0 p n).regs.map SReg.path) = _
    rw [iterElems_imm_paths]
    simp [childKeys, List.map_map, List.range_eq_range']
  all_goals rfl

mutual
theorem iterVal_path_len : ∀ (imm : Bool) (v : JVal) (p : List JKey) (n : Nat)
    (r : SReg), r ∈ (iterVal imm v p n).regs → p.length < r.path.length
  | imm, .obj fs, p, n => iterFields_path_len imm fs p n
  | imm, .arr es, p, n => iterElems_path_len imm es 0 p n
  | _, .undefv, _, _ => by intro r hr; cases hr
  | _, .nullv, _, _ => by intro r hr; cases hr
  | _, .num _, _, _ => by intro r hr; cases hr
  | _, .str _, _, _ => by intro r hr; cases hr
  | _, .boolv _, _, _ => by intro r hr; cases hr

theorem iterFields_path_len : ∀ (imm : Bool) (fs : JFields) (p : List JKey) (n : Nat)
    (r : SReg), r ∈ (iterFields imm fs p n).regs → p.length < r.path.length
  | _, .nil, _, _ => by intro r hr; cases hr
  | imm, .cons k v rest, p, n => by
    intro r hr
    cases imm with
    | true =>
      simp only [iterFields, eq_self_iff_true, if_true, List.nil_append,
        List.mem_cons] at hr
      rcases hr with h | h
      · subst h; simp [List.length_append]
      · exact iterFields_path_len true rest p (n + 1) r h
    | false =>
      simp only [iterFields, Bool.false_eq_true, if_false, List.mem_cons,
        List.mem_append] at hr
      rcases hr with h | h | h
      · subst h; simp [List.length_append]
      · have := iterVal_path_len false v (p ++ [JKey.str k]) (n + 1) r h
        simp [List.length_append] at this
        omega
      · exact iterFields_path_len false rest p _ r h

theorem iterElems_path_len : ∀ (imm : Bool) (es : JElems) (i : Nat) (p : List JKey) (n : Nat)
    (r : SReg), r ∈ (iterElems imm es i p n).regs → p.length < r.path.length
  | _, .nil, _, _, _ => by intro r hr; cases hr
  | imm, .cons v rest, i, p, n => by
    intro r hr
    cases imm with
    | true =>
      simp only [iterElems, eq_self_iff_true, if_true, List.nil_append,
        List.mem_cons] at hr
      rcases hr with h | h
      · subst h; simp [List.length_append]
      · exact iterElems_path_len true rest (i + 1) p (n + 1) r h
    | false =>
      simp only [iterElems, Bool.false_eq_true, if_false, List.mem_cons,
        List.mem_append] at hr
      rcases hr with h | h | h
      · subst h; simp [List.length_append]
      · have := iterVal_path_len false v (p ++ [JKey.idx i]) (n + 1) r h
        simp [List.length_append] at this
        omega
      · exact iterElems_path_len false rest (i + 1) p _ r h
end

mutual
theorem iterVal_stops_eq : ∀ (v : JVal) (p : List JKey) (n : Nat),
    (iterVal false v p n).stops
      = ((iterVal false v p n).regs.filter
          (fun r => r.path.length == p.length + 1)).map SReg.wid
  | .obj fs, p, n => iterFields_stops_eq fs p n
  | .arr es, p, n => iterElems_stops_eq es 0 p n
  | .undefv, _, _ => rfl
  | .nullv, _, _ => rfl
  | .num _, _, _ => rfl
  | .str _, _, _ => rfl
  | .boolv _, _, _ => rfl

theorem iterFields_stops_eq : ∀ (fs : JFields) (p : List JKey) (n : Nat),
    (iterFields false fs p n).stops
      = ((iterFields false fs p n).regs.filter
          (fun r => r.path.length == p.length + 1)).map SReg.wid
  | .nil, _, _ => rfl
  | .cons k v rest, p, n => by
    have hfil : ((iterVal false v (p ++ [JKey.str k]) (n + 1)).regs.filter
        (fun r => r.path.length == p.length + 1)) = [] := by
      apply List.filter_eq_nil_iff.mpr
      intro r hr
      have := iterVal_path_len false v (p ++ [JKey.str k]) (n + 1) r hr
      simp [List.length_append] at this ⊢
      omega
    have hhead : (((p ++ [JKey.str k]).length == p.length + 1) : Bool) = true := by
      simp [List.length_append]
    simp only [iterFields, Bool.false_eq_true, if_false, List.filter_cons,
      List.filter_append, hfil, hhead, if_true, List.nil_append, List.map_cons]
    rw [iterFields_stops_eq rest p _]

theorem iterElems_stops_eq : ∀ (es : JElems) (i : Nat) (p : List JKey) (n : Nat),
    (iterElems false es i p n).stops
      = ((iterElems false es i p n).regs.filter
          (fun r => r.path.length == p.length + 1)).map SReg.wid
  | .nil, _, _, _ => rfl
  | .cons v rest, i, p, n => by
    have hfil : ((iterVal false v (p ++ [JKey.idx i]) (n + 1)).regs.filter
        (fun r => r.path.length == p.length + 1)) = [] := by
      apply List.filter_eq_nil_iff.mpr
      intro r hr
      have := iterVal_path_len false v (p ++ [JKey.idx i]) (n + 1) r hr
      simp [List.length_append] at this ⊢
      omega
    have hhead : (((p ++ [JKey.idx i]).length == p.length + 1) : Bool) = true := by
      simp [List.length_append]
    simp only [iterElems, Bool.false_eq_true, if_false, List.filter_cons,
      List.filter_append, hfil, hhead, if_true, List.nil_append, List.map_cons]
    rw [iterElems_stops_eq rest (i + 1) p _]
end

theorem iterFields_stops_len (imm : Bool) : ∀ (fs : JFields) (p : List JKey) (n : Nat),
    (iterFields imm fs p n).stops.length = (fieldNames fs).length
  | .nil, _, _ => rfl
  | .cons k v rest, p, n => by
    cases imm <;>
      simp [iterFields, fieldNames, iterFields_stops_len _ rest p _]

theorem iterElems_stops_len (imm : Bool) : ∀ (es : JElems) (i : Nat) (p : List JKey) (n : Nat),
    (iterElems imm es i p n).stops.length = elemsLen es
  | .nil, _, _, _ => rfl
  | .cons v rest, i, p, n => by
    cases imm <;>
      simp [iterElems, elemsLen, iterElems_stops_len _ rest (i + 1) p _]

theorem iterVal_stops_len (imm : Bool) (v : JVal) (p : List JKey) (n : Nat) :
    (iterVal imm v p n).stops.length = (childKeys v).length := by
  cases v
  case obj fs =>
    show (iterFields imm fs p n).stops.length = _
    rw [iterFields_stops_len]
    simp [childKeys]
  case arr es =>
    show (iterElems imm es 0 p n).stops.length = _
    rw [iterElems_stops_len]
    simp [childKeys]
  all_goals rfl

/-! ## Helper lemmas about the import-graph walker -/

theorem finderRun_skip {visited : List String} {jsPath : String}
    (h : skipPath visited jsPath = true) (g : DepGraph) :
    finderRun g visited jsPath = Except.ok ([], []) := by
  unfold finderRun
  rw [dif_pos h]

theorem lex_nat_step {u1 u2 a b : Nat} (hle : u1 ≤ u2) (hab : a < b) :
    Prod.Lex (fun x y : Nat => x < y) (fun x y : Nat => x < y) (u1, a) (u2, b) := by
  rcases Nat.lt_or_ge u1 u2 with h | h
  · exact Prod.Lex.left _ _ h
  · have heq : u1 = u2 := Nat.le_antisymm hle h
    subst heq
    exact Prod.Lex.right _ hab

mutual
theorem finderRun_fresh (g : DepGraph) (visited : List String) (jsPath : String)
    (deps : List Dependency) (nv : List String)
    (h : finderRun g visited jsPath = Except.ok (deps, nv)) :
    nv.Nodup ∧ ∀ x ∈ nv, x ∉ visited := by
  rw [finderRun.eq_def] at h
  split at h
  case isTrue hskip =>
    cases h
    exact ⟨List.nodup_nil, by simp⟩
  case isFalse hskip =>
    split at h
    case h_1 => cases h
    case h_2 imports hlook =>
      split at h
      case h_1 => cases h
      case h_2 r hrec =>
        cases h
        have hfacts : jsPath ∈ g.map Prod.fst ∧ jsPath ∉ visited := by
          refine ⟨mem_keys_of_lookupGraph hlook, ?_⟩
          simp only [skipPath, Bool.or_eq_true, decide_eq_true_eq, not_or] at hskip
          exact hskip.2
        have ih := finderRecords_fresh g (jsPath :: visited) jsPath imports r.1 r.2 hrec
        constructor
        · rw [List.nodup_cons]
          exact ⟨fun hx => (ih.2 _ hx) (List.mem_cons_self _ _), ih.1⟩
        · intro x hx
          rcases List.mem_cons.mp hx with rfl | hx'
          · exact hfacts.2
          · exact fun hxv => (ih.2 x hx') (List.mem_cons.mpr (Or.inr hxv))
termination_by (unvisitedCount g visited, 0)
decreasing_by
  exact Prod.Lex.left _ _ (unvisitedCount_cons_lt hfacts.1 hfacts.2)

theorem finderRecords_fresh (g : DepGraph) (visited : List String) (jsPath : String)
    (imports : List (String × String)) (deps : List Dependency) (nv : List String)
    (h : finderRecords g visited jsPath imports = Except.ok (deps, nv)) :
    nv.Nodup ∧ ∀ x ∈ nv, x ∉ visited := by
  cases imports with
  | nil =>
    rw [finderRecords.eq_1] at h
    cases h
    exact ⟨List.nodup_nil, by simp⟩
  | cons imp rest =>
    rw [finderRecords.eq_2] at h
    split at h
    case h_1 => cases h
    case h_2 r1 hrun =>
      split at h
      case h_1 => cases h
      case h_2 r2 hrec =>
        cases h
        have ih1 := finderRun_fresh g visited imp.2 r1.1 r1.2 hrun
        have ih2 := finderRecords_fresh g (r1.2 ++ visited) jsPath rest r2.1 r2.2 hrec
        constructor
        · apply List.Nodup.append ih1.1 ih2.1
          intro a ha1 ha2
          exact (ih2.2 a ha2) (List.mem_append.mpr (Or.inl ha1))
        · intro x hx
          rcases List.mem_append.mp hx with hx | hx
          · exact ih1.2 x hx
          · exact fun hxv => (ih2.2 x hx) (List.mem_append.mpr (Or.inr hxv))
termination_by (unvisitedCount g visited, imports.length + 1)
decreasing_by
  · apply Prod.Lex.right
    omega
  · exact lex_nat_step (unvisitedCount_append_le g _ _)
      (by
        have hlen : imports = imp :: rest := by assumption
        rw [hlen, List.length_cons]
        omega)
end

theorem finderRun_revisit_a :
    finderRun cyclicGraph ["/b.js", "/a.js"] "/a.js" = Except.ok ([], []) :=
  finderRun_skip (by decide) cyclicGraph

theorem finderRecords_b :
    finderRecords cyclicGraph ["/b.js", "/a.js"] "/b.js" [("./a", "/a.js")]
      = Except.ok ([⟨"./a", "/a.js", "/b.js"⟩], []) := by
  rw [finderRecords.eq_2, finderRun_revisit_a]
  simp [finderRecords.eq_1]

theorem finderRun_b :
    finderRun cyclicGraph ["/a.js"] "/b.js"
      = Except.ok ([⟨"./a", "/a.js", "/b.js"⟩], ["/b.js"]) := by
  rw [finderRun.eq_def, dif_neg (by decide)]
  split
  · next heq => exact absurd heq (by decide)
  · next imports heq =>
      have h2 : imports = [("./a", "/a.js")] := by
        have h := (by decide : lookupGraph cyclicGraph "/b.js" = some [("./a", "/a.js")])
        rw [heq] at h
        exact Option.some.inj h
      subst h2
      rw [finderRecords_b]
      simp [uniqByFilePath]

theorem finderRecords_a :
    finderRecords cyclicGraph ["/a.js"] "/a.js" [("./b", "/b.js")]
      = Except.ok ([⟨"./b", "/b.js", "/a.js"⟩, ⟨"./a", "/a.js", "/b.js"⟩], ["/b.js"]) := by
  rw [finderRecords.eq_2, finderRun_b]
  simp [finderRecords.eq_1]

theorem finderRun_cyclic :
    findJsDependencyModules cyclicGraph "/a.js"
      = Except.ok ([⟨"./b", "/b.js", "/a.js"⟩, ⟨"./a", "/a.js", "/b.js"⟩],
          ["/a.js", "/b.js"]) := by
  show finderRun cyclicGraph [] "/a.js" = _
  rw [finderRun.eq_def, dif_neg (by decide)]
  split
  · next heq => exact absurd heq (by decide)
  · next imports heq =>
      have h2 : imports = [("./b", "/b.js")] := by
        have h := (by decide : lookupGraph cyclicGraph "/a.js" = some [("./b", "/b.js")])
        rw [heq] at h
        exact Option.some.inj h
      subst h2
      rw [finderRecords_a]
      simp [uniqByFilePath]

/-! ## Helper lemma for the global-data accessors -/

theorem lookupData_storeData : ∀ (d : List (String × HVal)) (k : String) (v : HVal),
    lookupData (storeData d k v) k = v
  | [], k, v => by simp [storeData, lookupData, List.find?]
  | e :: rest, k, v => by
    unfold storeData
    by_cases h : e.1 = k
    · rw [if_pos h]
      simp [lookupData, List.find?]
    · rw [if_neg h]
      have hstep : lookupData (e :: storeData rest k v) k
          = lookupData (storeData rest k v) k := by
        simp only [lookupData, List.find?]
        have : (e.1 == k) = false := by simp [h]
        rw [this]
      rw [hstep, lookupData_storeData rest k v]

/-! ## Claims -/

/-- C1 (counterexample): for the object `{ a: { b: 1 } }`, deep-watched
without `immediate`, the walk installs two watch registrations (key paths
`['a']` and `['a','b']`) but the returned disposer list covers only the
top-level one: it is not the case that every installed registration's
disposer is in the returned list. -/
theorem c1_returned_disposers_incomplete :
    ((watchDeep false nestedObj).regs.all
      (fun r => (watchDeep false nestedObj).stops.contains r.wid)) = false := by
  decide

/-- C1 (amended): the disposer list returned by `watchDeep` contains exactly
the disposers of the watch registrations installed directly on the root's
enumerable keys (the registrations whose key path has length 1), one per
enumerable key of the root; disposers for registrations installed at deeper
levels of the walk stay in the closure-local per-key stop lists and are not
part of the returned list. -/
theorem c1_returned_disposers_top_level_only (obj : JVal) :
    (watchDeep false obj).stops
      = ((watchDeep false obj).regs.filter
          (fun r => r.path.length == 1)).map SReg.wid
  ∧ (watchDeep false obj).stops.length = (childKeys obj).length := by
  constructor
  · have h := iterVal_stops_eq obj [] 0
    simpa using h
  · exact iterVal_stops_len false obj [] 0

/-- C2 (counterexample): deep-watching `{ a: { b: { c: 1 } } }` and then
replacing `obj.a` disposes only the watcher on the old child's immediate key
`['a','b']`; the watcher on `['a','b','c']` (a descendant watcher under `a`
installed over the old subtree) survives the replacement — the filter of
surviving registrations targeting the old subtree's objects (heap refs 1 and
2) is non-empty — and still fires when the detached old grandchild is
mutated. -/
theorem c2_stale_descendant_watcher_survives :
    (deepAfterSwap.regs.filter (fun r => r.tgt == 1 || r.tgt == 2)).isEmpty = false
  ∧ deepAfterOldWrite.events.contains
      ⟨[JKey.str "a", JKey.str "b", JKey.str "c"], HVal.prim 9, HVal.prim 1⟩ = true := by
  constructor <;> decide

/-- C2 (amended): when a watched key's composite value is replaced, the
per-key callback (i) first reports the change with the root path extended by
the key, (ii) disposes the watchers installed on the immediate keys of the
old composite value (those held in the key's internal stop list) — though
watchers deeper inside the old subtree are not disposed — and (iii) installs
fresh watchers over the new value's keys.  On the spec's depth-1 example
`{ a: { b: 1 } }` with `obj.a = { c: 2 }` this gives exactly the described
behaviour: the `['a']` callback fires with old/new values, the `['a','b']`
watcher is disposed, a new `['a','c']` watcher is installed, the subsequent
write `obj.a.c = 3` fires `['a','c']`, and a write to the detached old child
fires nothing.  On the depth-2 example the immediate child watcher is
disposed while the grandchild watcher `['a','b','c']` is retained. -/
theorem c2_subtree_replacement_behaviour :
    replSetup.regs.map DReg.path = [[JKey.str "a"], [JKey.str "a", JKey.str "b"]]
  ∧ replAfterSwap.events = [⟨[JKey.str "a"], HVal.ref 2, HVal.ref 1⟩]
  ∧ replAfterSwap.regs = [⟨0, 0, JKey.str "a", [JKey.str "a"]⟩,
      ⟨2, 2, JKey.str "c", [JKey.str "a", JKey.str "c"]⟩]
  ∧ replFinal.events = [⟨[JKey.str "a"], HVal.ref 2, HVal.ref 1⟩,
      ⟨[JKey.str "a", JKey.str "c"], HVal.prim 3, HVal.prim 2⟩]
  ∧ deepAfterSwap.regs = [⟨0, 0, JKey.str "a", [JKey.str "a"]⟩,
      ⟨2, 2, JKey.str "c", [JKey.str "a", JKey.str "b", JKey.str "c"]⟩,
      ⟨3, 3, JKey.str "x", [JKey.str "a", JKey.str "x"]⟩] :=
  ⟨by decide, by decide, by decide, by decide, by decide⟩

/-- C3 (confirmed): for each of the three lifecycle buckets, the clear-all
operation invokes every disposer currently in the bucket exactly once, in
insertion order (the invocation log is extended by exactly the bucket's
contents), then empties the bucket; a second clear invokes nothing (it is
idempotent); and a disposer registered after a clear starts a fresh bucket
whose clear invokes exactly it. -/
theorem c3_bucket_clear_exactly_once (s : CSState) (f : Nat) :
    ((removeAllStopList s).log = s.log ++ s.cs.stopList
      ∧ (removeAllStopList s).cs.stopList = []
      ∧ removeAllStopList (removeAllStopList s) = removeAllStopList s
      ∧ (removeAllStopList (setStopList (removeAllStopList s) [f])).log
          = (removeAllStopList s).log ++ [f])
  ∧ ((stopAllAutorun s).log = s.log ++ s.cs.stopAutorunList
      ∧ (stopAllAutorun s).cs.stopAutorunList = []
      ∧ stopAllAutorun (stopAllAutorun s) = stopAllAutorun s
      ∧ (stopAllAutorun (addAutorunStopFn (stopAllAutorun s) f)).log
          = (stopAllAutorun s).log ++ [f])
  ∧ ((stopAllWatch s).log = s.log ++ s.cs.stopWatchList
      ∧ (stopAllWatch s).cs.stopWatchList = []
      ∧ stopAllWatch (stopAllWatch s) = stopAllWatch s
      ∧ (stopAllWatch (addWatchStopFn (stopAllWatch s) f)).log
          = (stopAllWatch s).log ++ [f]) := by
  simp [removeAllStopList, setStopList, stopAllAutorun, addAutorunStopFn,
    stopAllWatch, addWatchStopFn]

/-- C4 (confirmed): deep-watching a non-composite root (undefined, null, or
any primitive) installs no watchers and returns an empty disposer list. -/
theorem c4_noncomposite_root_empty (v : JVal) (imm : Bool)
    (h : isComposite v = false) : watchDeep imm v = ⟨[], [], 0⟩ := by
  cases v <;> simp_all [watchDeep, iterVal, isComposite]

/-- C4 witness: the null root, concretely. -/
theorem c4_noncomposite_root_empty_witness :
    isComposite JVal.nullv = false ∧ watchDeep true JVal.nullv = ⟨[], [], 0⟩ :=
  ⟨rfl, c4_noncomposite_root_empty JVal.nullv true rfl⟩

/-- C5 (confirmed): with `immediate` set, the setup walk installs watchers
only on the node's own enumerated keys (no eager recursion — key paths are
exactly the parent path extended by one key); without `immediate` it covers
every key path of the existing subtree.  Dynamically, with `immediate` set,
the subtree under a key is only covered after the key's first change: on
`{ a: { b: 1 } }` the setup installs only the `['a']` watcher, and after
`obj.a = { c: 2 }` a watcher for `['a','c']` exists. -/
theorem c5_immediate_skips_eager_recursion :
    (∀ (v : JVal) (p : List JKey) (n : Nat),
        ((iterVal true v p n).regs.map SReg.path) = (childKeys v).map (fun k => p ++ [k]))
  ∧ (∀ (v : JVal) (p : List JKey) (n : Nat),
        ((iterVal false v p n).regs.map SReg.path) = allKeyPaths v p)
  ∧ immSetup.regs.map DReg.path = [[JKey.str "a"]]
  ∧ immAfterSwap.regs.map DReg.path = [[JKey.str "a"], [JKey.str "a", JKey.str "c"]] :=
  ⟨iterVal_imm_paths, iterVal_regs_paths, by decide, by decide⟩

/-- C6 (confirmed): the eager walk's installed registrations carry exactly
the spec-side key paths `allKeyPaths` (each node's keys enumerated in order,
parent path extended by the key, preorder); a level's enumerated keys are
numeric indices `0..length-1` for arrays and the field names as string keys
for objects. -/
theorem c6_enumeration_order_and_key_paths (obj : JVal) :
    ((watchDeep false obj).regs.map SReg.path) = allKeyPaths obj []
  ∧ (∀ es : JElems, childKeys (JVal.arr es) = (List.range (elemsLen es)).map JKey.idx)
  ∧ (∀ fs : JFields, childKeys (JVal.obj fs) = (fieldNames fs).map JKey.str) :=
  ⟨iterVal_regs_paths obj [] 0, fun _ => rfl, fun _ => rfl⟩

/-- C7 (confirmed): `stopAllWatch` invokes exactly the watch bucket (the log
gains exactly its contents) and leaves the autorun and general buckets
unchanged, so that a later `stopAllAutorun` still invokes all autorun
disposers; and symmetrically for `stopAllAutorun`. -/
theorem c7_bucket_isolation (s : CSState) :
    ((stopAllWatch s).log = s.log ++ s.cs.stopWatchList
      ∧ (stopAllWatch s).cs.stopAutorunList = s.cs.stopAutorunList
      ∧ (stopAllWatch s).cs.stopList = s.cs.stopList
      ∧ (stopAllAutorun (stopAllWatch s)).log
          = s.log ++ s.cs.stopWatchList ++ s.cs.stopAutorunList)
  ∧ ((stopAllAutorun s).log = s.log ++ s.cs.stopAutorunList
      ∧ (stopAllAutorun s).cs.stopWatchList = s.cs.stopWatchList
      ∧ (stopAllAutorun s).cs.stopList = s.cs.stopList
      ∧ (stopAllWatch (stopAllAutorun s)).log
          = s.log ++ s.cs.stopAutorunList ++ s.cs.stopWatchList) := by
  simp [stopAllWatch, stopAllAutorun]

/-- C8 (confirmed): the `set` accessor stores the value and bumps the
re-render counter exactly when the new value differs from the stored one
under identity comparison; writing an identical value changes nothing; `get`
always returns the currently stored value. -/
theorem c8_useGlobalData_set_get (s : GlobalState) (k : String) (v : HVal) :
    (ugdGet s k ≠ v →
       (ugdSet s k v).data = storeData s.data k v
       ∧ (ugdSet s k v).counter = s.counter + 1
       ∧ ugdGet (ugdSet s k v) k = v)
  ∧ (ugdGet s k = v → ugdSet s k v = s)
  ∧ ugdGet s k = lookupData s.data k := by
  refine ⟨?_, ?_, rfl⟩
  · intro h
    have h' : ¬ lookupData s.data k = v := h
    unfold ugdSet
    rw [if_neg h']
    exact ⟨rfl, rfl, lookupData_storeData s.data k v⟩
  · intro h
    have h' : lookupData s.data k = v := h
    unfold ugdSet
    rw [if_pos h']

/-- C8 witness: a concrete store where a differing write bumps the counter
and an identical write is a no-op. -/
theorem c8_useGlobalData_set_get_witness :
    (ugdGet gs0 "k" ≠ HVal.prim 1
      ∧ ((ugdSet gs0 "k" (HVal.prim 1)).data = storeData gs0.data "k" (HVal.prim 1)
         ∧ (ugdSet gs0 "k" (HVal.prim 1)).counter = gs0.counter + 1
         ∧ ugdGet (ugdSet gs0 "k" (HVal.prim 1)) "k" = HVal.prim 1))
  ∧ (ugdGet gs0 "k" = HVal.prim 0 ∧ ugdSet gs0 "k" (HVal.prim 0) = gs0) :=
  ⟨⟨by decide, (c8_useGlobalData_set_get gs0 "k" (HVal.prim 1)).1 (by decide)⟩,
   ⟨by decide, (c8_useGlobalData_set_get gs0 "k" (HVal.prim 0)).2.1 (by decide)⟩⟩

/-- C9 (confirmed): `Finder.run` returns an empty result immediately for
paths not starting with `/`, for paths ending with `.json`, and for
already-visited paths; within one run every file is parsed at most once (the
list of paths added to the visited set — exactly the parsed files — has no
duplicates); and the walker terminates on every finite import graph,
including cyclic ones: the model is defined by well-founded recursion on the
number of unvisited graph keys, and on the concrete two-file cyclic graph it
returns the dependency list after visiting each file once. -/
theorem c9_finder_guards_and_parse_once :
    (∀ (g : DepGraph) (visited : List String) (jsPath : String),
        strStartsWith jsPath "/" = false → finderRun g visited jsPath = Except.ok ([], []))
  ∧ (∀ (g : DepGraph) (visited : List String) (jsPath : String),
        strEndsWith jsPath ".json" = true → finderRun g visited jsPath = Except.ok ([], []))
  ∧ (∀ (g : DepGraph) (visited : List String) (jsPath : String),
        jsPath ∈ visited → finderRun g visited jsPath = Except.ok ([], []))
  ∧ (∀ (g : DepGraph) (jsPath : String) (deps : List Dependency) (parsed : List String),
        findJsDependencyModules g jsPath = Except.ok (deps, parsed) → parsed.Nodup)
  ∧ findJsDependencyModules cyclicGraph "/a.js"
      = Except.ok ([⟨"./b", "/b.js", "/a.js"⟩, ⟨"./a", "/a.js", "/b.js"⟩],
          ["/a.js", "/b.js"]) := by
  refine ⟨?_, ?_, ?_, ?_, finderRun_cyclic⟩
  · intro g v p h
    exact finderRun_skip (by simp [skipPath, h]) g
  · intro g v p h
    exact finderRun_skip (by simp [skipPath, h]) g
  · intro g v p h
    exact finderRun_skip (by simp [skipPath, h]) g
  · intro g p deps parsed h
    exact (finderRun_fresh g [] p deps parsed h).1

/-- C9 witness: each guard at a concrete input, and the duplicate-free
visited list of the concrete cyclic run. -/
theorem c9_finder_guards_and_parse_once_witness :
    (strStartsWith "a.js" "/" = false ∧ finderRun [] [] "a.js" = Except.ok ([], []))
  ∧ (strEndsWith "/x.json" ".json" = true ∧ finderRun [] [] "/x.json" = Except.ok ([], []))
  ∧ ("/v.js" ∈ ["/v.js"] ∧ finderRun [] ["/v.js"] "/v.js" = Except.ok ([], []))
  ∧ (findJsDependencyModules cyclicGraph "/a.js"
      = Except.ok ([⟨"./b", "/b.js", "/a.js"⟩, ⟨"./a", "/a.js", "/b.js"⟩],
          ["/a.js", "/b.js"])
     ∧ (["/a.js", "/b.js"] : List String).Nodup) :=
  ⟨⟨by decide, c9_finder_guards_and_parse_once.1 [] [] "a.js" (by decide)⟩,
   ⟨by decide, c9_finder_guards_and_parse_once.2.1 [] [] "/x.json" (by decide)⟩,
   ⟨by decide, c9_finder_guards_and_parse_once.2.2.1 [] ["/v.js"] "/v.js" (by decide)⟩,
   ⟨c9_finder_guards_and_parse_once.2.2.2.2,
    c9_finder_guards_and_parse_once.2.2.2.1 cyclicGraph "/a.js" _ _
      c9_finder_guards_and_parse_once.2.2.2.2⟩⟩

/-- C10 (confirmed): the substitutions installed by `pdsCustomHandle` are a
function of the environment's `GOLDFISH_APP*` and `NODE_ENV` entries alone:
two environments agreeing on those entries produce the same replacement
pipeline and hence the same compiled output for every source text. -/
theorem c10_env_substitution_isolation (env1 env2 : List (String × String))
    (src : String) (h : collectEnvs env1 = collectEnvs env2) :
    pdsReplacements env1 = pdsReplacements env2
  ∧ pdsCustomHandle env1 src = pdsCustomHandle env2 src := by
  have hrep : pdsReplacements env1 = pdsReplacements env2 := by
    unfold pdsReplacements
    rw [h]
  refine ⟨hrep, ?_⟩
  unfold pdsCustomHandle
  rw [hrep]

/-- C10 witness: two concrete environments differing in `HOME`, `PATH` and
`USER` but agreeing on the relevant variables. -/
theorem c10_env_substitution_isolation_witness :
    collectEnvs envA = collectEnvs envB
  ∧ (pdsReplacements envA = pdsReplacements envB
     ∧ pdsCustomHandle envA "x = process.env.GOLDFISH_APP_X;"
         = pdsCustomHandle envB "x = process.env.GOLDFISH_APP_X;") :=
  ⟨by decide, c10_env_substitution_isolation envA envB "x = process.env.GOLDFISH_APP_X;" (by decide)⟩
